import Mathlib

/-!
Shallow embedding of `untrusted.rs` (the `Input`/`Reader` pair, the
total-consumption protocol `read_all` / `read_all_optional`, and the
`EndOfInput` error).  A byte slice `&'a [u8]` is modelled as `List UInt8`;
an operation taking `&mut self` is modelled as an explicit state-passing
function returning its result together with the updated `Reader`.  The two
`unwrap()` calls inside `Reader::read_partial` can panic in Rust; that
operation therefore returns an `Option`, with `none` standing for the panic.
-/

/-- Models `struct Input<'a>(&'a [u8])`: a read-only view of a byte buffer. -/
structure Input where
  value : List UInt8
deriving DecidableEq, Repr

/-- Models `Input::empty()`: the view of an empty buffer. -/
def Input.empty : Input := ⟨[]⟩

/-- Models `Input::from(bytes)`.  The Rust `debug_assert!(bytes.len() < usize::MAX)`
is a programmer-error check, not a runtime failure; lengths are `Nat` here so the
overflow-freedom it protects holds by construction. -/
def Input.fromBytes (bytes : List UInt8) : Input := ⟨bytes⟩

/-- Models `Input::first`: the first byte, or `none` if the input is empty. -/
def Input.first (i : Input) : Option UInt8 := i.value.head?

/-- Models `Input::is_empty`. -/
def Input.is_empty (i : Input) : Bool := i.value.isEmpty

/-- Models `Input::len`. -/
def Input.len (i : Input) : Nat := i.value.length

/-- Models `Input::split_first`: first byte and rest, or `none` if empty. -/
def Input.split_first (i : Input) : Option (UInt8 × Input) :=
  match i.value with
  | [] => none
  | h :: t => some (h, ⟨t⟩)

/-- Models `Input::split_at(i)`: `(bytes [0,i), bytes [i,len))`, or `none` when
`i` is out of bounds (`self.0.len() < i`). -/
def Input.split_at (i : Input) (n : Nat) : Option (Input × Input) :=
  if i.value.length < n then none
  else some (⟨i.value.take n⟩, ⟨i.value.drop n⟩)

/-- Models `Input::as_slice_less_safe`: the raw underlying bytes. -/
def Input.as_slice_less_safe (i : Input) : List UInt8 := i.value

/-- Models `impl PartialEq<Input> for Input`: byte-wise comparison of the
underlying slices. -/
def Input.eq (u v : Input) : Bool :=
  u.as_slice_less_safe == v.as_slice_less_safe

/-- Models `impl PartialEq<&[u8]> for Input`: comparison against a raw slice. -/
def Input.eq_slice (u : Input) (other : List UInt8) : Bool :=
  u.as_slice_less_safe == other

/-- Models `struct EndOfInput`: the single, payload-free error value. -/
structure EndOfInput
deriving DecidableEq, Repr

/-- Models `struct Reader<'a>(Input<'a>)`: the forward-only cursor. -/
structure Reader where
  input : Input
deriving DecidableEq, Repr

/-- Models `Reader::new`. -/
def Reader.new (input : Input) : Reader := ⟨input⟩

/-- Models `Reader::at_end`: `self.0.is_empty()`. -/
def Reader.at_end (r : Reader) : Bool := r.input.is_empty

/-- Models `Reader::peek(b)`: `self.0.first().map(|b| *b) == Some(b)`. -/
def Reader.peek (r : Reader) (b : UInt8) : Bool := r.input.first == some b

/-- Models `Reader::read_byte`.  The returned `Reader` is the state of `self`
after the call: unchanged on the `EndOfInput` branch, advanced past the byte
on success. -/
def Reader.read_byte (r : Reader) : Except EndOfInput UInt8 × Reader :=
  match r.input.split_first with
  | none => (Except.error EndOfInput.mk, r)
  | some (h, t) => (Except.ok h, ⟨t⟩)

/-- Models `Reader::read_bytes(num_bytes)`: `self.0.split_at(num_bytes)`, with
`self` unchanged when that fails and set to `after` when it succeeds. -/
def Reader.read_bytes (r : Reader) (num_bytes : Nat) :
    Except EndOfInput Input × Reader :=
  match r.input.split_at num_bytes with
  | none => (Except.error EndOfInput.mk, r)
  | some (before, after) => (Except.ok before, ⟨after⟩)

/-- Models `Reader::read_bytes_to_end`: `mem::replace(&mut self.0, Input::empty())`. -/
def Reader.read_bytes_to_end (r : Reader) : Input × Reader :=
  (r.input, ⟨Input.empty⟩)

/-- Models `usize::checked_sub`: `none` on underflow. -/
def checked_sub (a b : Nat) : Option Nat :=
  if b ≤ a then some (a - b) else none

/-- Models `Reader::read_partial(read)`.  A callback `FnOnce(&mut Reader<'a>)
-> Result<R, E>` is a state transformer `Reader → Except E R × Reader`.  The
outer `Option` models the two `unwrap()` calls: `none` is the Rust panic that
fires when the callback leaves the reader with more bytes than it started with. -/
def Reader.read_partial {E R : Type} (read : Reader → Except E R × Reader)
    (s : Reader) : Option (Except E (Input × R) × Reader) :=
  let original := s.input
  match read s with
  | (Except.error e, s1) => some (Except.error e, s1)
  | (Except.ok r, s1) =>
    match checked_sub original.len s1.input.len with
    | none => none
    | some amount_read =>
      match original.split_at amount_read with
      | none => none
      | some (bytes_read, _) => some (Except.ok (bytes_read, r), s1)

/-- Models `Reader::skip(num_bytes)`: `self.read_bytes(num_bytes).map(|_| ())`. -/
def Reader.skip (r : Reader) (num_bytes : Nat) : Except EndOfInput Unit × Reader :=
  match r.read_bytes num_bytes with
  | (Except.error e, r1) => (Except.error e, r1)
  | (Except.ok _, r1) => (Except.ok (), r1)

/-- Models `Reader::skip_to_end`: `let _ = self.read_bytes_to_end();`. -/
def Reader.skip_to_end (r : Reader) : Unit × Reader :=
  ((), r.read_bytes_to_end.2)

/-- Models `Input::read_all(incomplete_read, read)`: runs `read` on a fresh
`Reader`, propagates its error, and demands the reader end at `at_end`. -/
def Input.read_all {E R : Type} (inp : Input) (incomplete_read : E)
    (read : Reader → Except E R × Reader) : Except E R :=
  let input := Reader.new inp
  match read input with
  | (Except.error e, _) => Except.error e
  | (Except.ok result, input1) =>
    if input1.at_end then Except.ok result else Except.error incomplete_read

/-- A callback `FnOnce(Option<&mut Reader<'a>>) -> Result<R, E>` is determined
by its action on a present reader (a state transformer, `onSome`) and on an
absent one (a plain result, `onNone`). -/
structure OptCallback (E R : Type) where
  onSome : Reader → Except E R × Reader
  onNone : Except E R

/-- Models the free function `read_all_optional(input, incomplete_read, read)`. -/
def read_all_optional {E R : Type} (input : Option Input) (incomplete_read : E)
    (read : OptCallback E R) : Except E R :=
  match input with
  | some inp =>
    let input1 := Reader.new inp
    match read.onSome input1 with
    | (Except.error e, _) => Except.error e
    | (Except.ok result, input2) =>
      if input2.at_end then Except.ok result else Except.error incomplete_read
  | none => read.onNone

/-- Programs that manipulate a `Reader` only through its own operations, with
result type `R` and error type `E`; each constructor performs one `Reader`
operation and passes its result to a continuation.  This is the universe of
callbacks over which the safety claim about `read_partial` is stated. -/
inductive RProg (E R : Type) : Type where
  | ret : Except E R → RProg E R
  | readByteK : (Except EndOfInput UInt8 → RProg E R) → RProg E R
  | readBytesK : Nat → (Except EndOfInput Input → RProg E R) → RProg E R
  | readBytesToEndK : (Input → RProg E R) → RProg E R
  | skipK : Nat → (Except EndOfInput Unit → RProg E R) → RProg E R
  | skipToEndK : RProg E R → RProg E R
  | peekK : UInt8 → (Bool → RProg E R) → RProg E R
  | atEndK : (Bool → RProg E R) → RProg E R

/-- Interpret an `RProg` as the state-transformer callback it denotes. -/
def runRProg {E R : Type} : RProg E R → Reader → Except E R × Reader
  | RProg.ret x, s => (x, s)
  | RProg.readByteK k, s =>
    let p := s.read_byte
    runRProg (k p.1) p.2
  | RProg.readBytesK n k, s =>
    let p := s.read_bytes n
    runRProg (k p.1) p.2
  | RProg.readBytesToEndK k, s =>
    let p := s.read_bytes_to_end
    runRProg (k p.1) p.2
  | RProg.skipK n k, s =>
    let p := s.skip n
    runRProg (k p.1) p.2
  | RProg.skipToEndK k, s => runRProg k (s.skip_to_end).2
  | RProg.peekK b k, s => runRProg (k (s.peek b)) s
  | RProg.atEndK k, s => runRProg (k s.at_end) s

/-! Helper lemmas: every `Reader` operation leaves the remaining window a
suffix of what it was, hence of the `Input` supplied at construction. -/

theorem read_byte_state_suffix (s : Reader) :
    List.IsSuffix s.read_byte.2.input.value s.input.value := by
  rcases s with ⟨⟨l⟩⟩
  cases l with
  | nil => exact List.suffix_refl _
  | cons h t =>
    simp only [Reader.read_byte, Input.split_first]
    exact ⟨[h], rfl⟩

theorem read_bytes_state_suffix (s : Reader) (n : Nat) :
    List.IsSuffix (s.read_bytes n).2.input.value s.input.value := by
  rcases s with ⟨⟨l⟩⟩
  simp only [Reader.read_bytes, Input.split_at]
  by_cases h : l.length < n
  · simp only [if_pos h]
    exact List.suffix_refl _
  · simp only [if_neg h]
    exact List.drop_suffix n l

theorem skip_state_eq (s : Reader) (n : Nat) :
    (s.skip n).2 = (s.read_bytes n).2 := by
  simp only [Reader.skip]
  rcases h : s.read_bytes n with ⟨res, r1⟩
  cases res <;> simp

theorem skip_state_suffix (s : Reader) (n : Nat) :
    List.IsSuffix (s.skip n).2.input.value s.input.value := by
  rw [skip_state_eq]
  exact read_bytes_state_suffix s n

theorem read_bytes_to_end_state (s : Reader) :
    s.read_bytes_to_end.2.input.value = [] := rfl

theorem skip_to_end_state (s : Reader) :
    s.skip_to_end.2.input.value = [] := rfl

theorem runRProg_state_suffix {E R : Type} (p : RProg E R) (s : Reader) :
    List.IsSuffix (runRProg p s).2.input.value s.input.value := by
  induction p generalizing s with
  | ret x => exact List.suffix_refl _
  | readByteK k ih =>
    simp only [runRProg]
    exact (ih _ _).trans (read_byte_state_suffix s)
  | readBytesK n k ih =>
    simp only [runRProg]
    exact (ih _ _).trans (read_bytes_state_suffix s n)
  | readBytesToEndK k ih =>
    simp only [runRProg]
    exact (ih _ _).trans (read_bytes_to_end_state s ▸ List.nil_suffix)
  | skipK n k ih =>
    simp only [runRProg]
    exact (ih _ _).trans (skip_state_suffix s n)
  | skipToEndK k ih =>
    simp only [runRProg]
    exact (ih _).trans (skip_to_end_state s ▸ List.nil_suffix)
  | peekK b k ih =>
    simp only [runRProg]
    exact ih _ _
  | atEndK k ih =>
    simp only [runRProg]
    exact ih _ _

theorem read_partial_isSome_of_shrink {E R : Type}
    (f : Reader → Except E R × Reader) (s : Reader)
    (h : ∀ r s1, f s = (Except.ok r, s1) → s1.input.len ≤ s.input.len) :
    ( Reader.read_partial f s).isSome = true := by
  simp only [Reader.read_partial]
  rcases hf : f s with ⟨res, s1⟩
  cases res with
  | error e => rfl
  | ok r =>
    have hle := h r s1 hf
    simp only [checked_sub, Input.split_at, Input.len] at hle ⊢
    rw [if_pos hle]
    have hnl : ¬ s.input.value.length < s.input.value.length - s1.input.value.length :=
      Nat.not_lt.mpr (Nat.sub_le _ _)
    simp [hnl]

/-! Helper lemmas: the primitive reads leave the state untouched on failure. -/

theorem read_byte_error_state (s : Reader) (err : EndOfInput) (s1 : Reader)
    (h : s.read_byte = (Except.error err, s1)) : s1 = s := by
  rcases s with ⟨⟨l⟩⟩
  cases l with
  | nil =>
    simp only [Reader.read_byte, Input.split_first] at h
    rw [Prod.mk.injEq] at h
    exact h.2.symm
  | cons x t =>
    simp only [Reader.read_byte, Input.split_first] at h
    rw [Prod.mk.injEq] at h
    exact absurd h.1 (by simp)

theorem read_bytes_error_state (s : Reader) (n : Nat) (err : EndOfInput) (s1 : Reader)
    (h : s.read_bytes n = (Except.error err, s1)) : s1 = s := by
  unfold Reader.read_bytes at h
  rcases hsp : s.input.split_at n with _ | p
  · simp only [hsp] at h
    rw [Prod.mk.injEq] at h
    exact h.2.symm
  · rcases p with ⟨before, after⟩
    simp only [hsp] at h
    rw [Prod.mk.injEq] at h
    exact absurd h.1 (by simp)

theorem skip_error_state (s : Reader) (n : Nat) (err : EndOfInput) (s1 : Reader)
    (h : s.skip n = (Except.error err, s1)) : s1 = s := by
  unfold Reader.skip at h
  rcases hrb : s.read_bytes n with ⟨res, r1⟩
  simp only [hrb] at h
  cases res with
  | error e1 =>
    rw [Prod.mk.injEq] at h
    exact h.2 ▸ read_bytes_error_state s n e1 r1 hrb
  | ok i =>
    rw [Prod.mk.injEq] at h
    exact absurd h.1 (by simp)

theorem read_partial_error_state {E R : Type} (f : Reader → Except E R × Reader)
    (s : Reader) (e : E) (s1 : Reader) (h : f s = (Except.error e, s1)) :
     Reader.read_partial f s = some (Except.error e, s1) := by
  simp only [ Reader.read_partial, h]

/-- C1: `read_all(e, f)` on a View creates a fresh Cursor, returns `f`'s success
value exactly when `f` succeeds with the Cursor at end, discards the success and
returns `e` when at least one byte remains unconsumed, and propagates `f`'s
error unchanged. -/
theorem c1_read_all_sound {E R : Type} (e : E) (f : Reader → Except E R × Reader)
    (inp : Input) (r : R) (er : E) (s1 t1 : Reader) :
    (f (Reader.new inp) = (Except.ok r, s1) →
      Input.read_all inp e f =
        (if s1.at_end = true then Except.ok r else Except.error e)) ∧
    (f (Reader.new inp) = (Except.error er, t1) →
      Input.read_all inp e f = Except.error er) ∧
    (Input.read_all inp e f = Except.ok r →
      ∃ s2, f (Reader.new inp) = (Except.ok r, s2) ∧ s2.at_end = true) := by
  refine ⟨?_, ?_, ?_⟩
  · intro h
    simp only [Input.read_all, h]
  · intro h
    simp only [Input.read_all, h]
  · intro h
    unfold Input.read_all at h
    rcases hf : f (Reader.new inp) with ⟨res, s2⟩
    simp only [hf] at h
    cases res with
    | error e1 => exact absurd h (by simp)
    | ok v =>
      have h2 : (if s2.at_end = true then (Except.ok v : Except E R)
          else Except.error e) = Except.ok r := h
      by_cases hend : s2.at_end = true
      · rw [if_pos hend] at h2
        rw [Except.ok.injEq] at h2
        exact ⟨s2, by rw [h2], hend⟩
      · rw [if_neg hend] at h2
        exact absurd h2 (by simp)

/-- Callback that consumes everything and succeeds. -/
def c1cbAll (s : Reader) : Except Bool Unit × Reader :=
  (Except.ok (), s.read_bytes_to_end.2)

/-- Callback that succeeds without consuming anything. -/
def c1cbNone (s : Reader) : Except Bool Unit × Reader :=
  (Except.ok (), s)

/-- Callback that fails with `false`. -/
def c1cbFail (s : Reader) : Except Bool Unit × Reader :=
  (Except.error false, s)

theorem c1_read_all_sound_witness :
    Input.read_all (Input.fromBytes [1]) true c1cbAll = Except.ok () ∧
    Input.read_all (Input.fromBytes [1]) true c1cbNone = Except.error true ∧
    Input.read_all (Input.fromBytes [1]) true c1cbFail = Except.error false := by
  refine ⟨?_, ?_, ?_⟩
  · simpa using
      (c1_read_all_sound true c1cbAll (Input.fromBytes [1]) () false
        (Reader.new Input.empty) (Reader.new Input.empty)).1 rfl
  · simpa using
      (c1_read_all_sound true c1cbNone (Input.fromBytes [1]) () false
        (Reader.new (Input.fromBytes [1])) (Reader.new (Input.fromBytes [1]))).1 rfl
  · exact
      (c1_read_all_sound true c1cbFail (Input.fromBytes [1]) () false
        (Reader.new (Input.fromBytes [1])) (Reader.new (Input.fromBytes [1]))).2.1 rfl

/-- Callback that consumes one byte and then fails; exhibits a failed
`read_partial` call whose Cursor does not return to its pre-call window. -/
def c2cb (s : Reader) : Except Unit Unit × Reader :=
  (Except.error (), s.read_byte.2)

/-- C2 counterexample: on the one-byte buffer `[1]`, the callback `c2cb`
consumes the byte and then fails, so `read_partial` returns an error while the
Cursor's remaining window has changed from `[1]` to `[]` — a failed read that
does not leave the Cursor unchanged. -/
theorem c2_counterexample :
     Reader.read_partial c2cb (Reader.new (Input.fromBytes [1])) =
      some (Except.error (), Reader.new (Input.fromBytes [])) ∧
    Reader.new (Input.fromBytes []) ≠ Reader.new (Input.fromBytes [1]) := by
  exact ⟨rfl, by decide⟩

/-- C2 amended: a failed `read_byte`, `read_bytes(n)` or `skip(n)` leaves the
Cursor exactly as it was before the call; a failed `read_partial(f)` instead
leaves the Cursor wherever the callback `f` left it, which can differ from the
pre-call window when `f` consumes bytes before failing. -/
theorem c2_failed_read_state {E R : Type} (f : Reader → Except E R × Reader)
    (s s1 s2 s3 s4 : Reader) (n : Nat) (err : EndOfInput) (e : E) :
    (s.read_byte = (Except.error err, s1) → s1 = s) ∧
    (s.read_bytes n = (Except.error err, s2) → s2 = s) ∧
    (s.skip n = (Except.error err, s3) → s3 = s) ∧
    (f s = (Except.error e, s4) →
       Reader.read_partial f s = some (Except.error e, s4)) := by
  refine ⟨?_, ?_, ?_, ?_⟩
  · exact read_byte_error_state s err s1
  · exact read_bytes_error_state s n err s2
  · exact skip_error_state s n err s3
  · exact read_partial_error_state f s e s4

theorem c2_failed_read_state_witness :
    Reader.new (Input.fromBytes []) = Reader.new (Input.fromBytes []) ∧
     Reader.read_partial c2cb (Reader.new (Input.fromBytes [])) =
      some (Except.error (), Reader.new (Input.fromBytes [])) := by
  have h := c2_failed_read_state c2cb (Reader.new (Input.fromBytes []))
    (Reader.new (Input.fromBytes [])) (Reader.new (Input.fromBytes []))
    (Reader.new (Input.fromBytes [])) (Reader.new (Input.fromBytes []))
    1 EndOfInput.mk ()
  exact ⟨h.1 rfl, h.2.2.2 rfl⟩

/-- C3: on a fresh Reader over a buffer `b`, `read_bytes(n)` with `n ≤ len b`
succeeds, returns the View of `b[0..n]`, and leaves exactly the bytes
`b[n..len b]` (hence `len b - n` bytes) remaining. -/
theorem c3_read_bytes_exact (b : List UInt8) (n : Nat) (h : n ≤ b.length) :
    Reader.read_bytes (Reader.new (Input.fromBytes b)) n =
      (Except.ok (Input.fromBytes (b.take n)),
        Reader.new (Input.fromBytes (b.drop n))) ∧
    (Reader.read_bytes (Reader.new (Input.fromBytes b)) n).2.input.len =
      b.length - n := by
  have hnl : ¬ b.length < n := Nat.not_lt.mpr h
  constructor
  · simp only [Reader.read_bytes, Input.split_at, Reader.new, Input.fromBytes,
      if_neg hnl]
  · simp only [Reader.read_bytes, Input.split_at, Reader.new, Input.fromBytes,
      if_neg hnl, Input.len]
    exact List.length_drop n b

theorem c3_read_bytes_exact_witness :
    Reader.read_bytes (Reader.new (Input.fromBytes [1, 2, 3])) 2 =
      (Except.ok (Input.fromBytes [1, 2]), Reader.new (Input.fromBytes [3])) ∧
    (Reader.read_bytes (Reader.new (Input.fromBytes [1, 2, 3])) 2).2.input.len = 1 := by
  have h := c3_read_bytes_exact [1, 2, 3] 2 (by decide)
  exact ⟨h.1, h.2⟩

/-- C4: no operation traps.  All `Input`/`Reader` operations are total
functions of their inputs; for any callback built only from `Reader`
operations (any `RProg`), the `checked_sub(..).unwrap()` and
`split_at(..).unwrap()` inside `read_partial` cannot fail (the result is never
the `none` that models the panic); `read_bytes(0)`/`skip(0)` succeed on every
Reader, including one over an empty buffer; and `split_at`, `split_first` and
`first` return `none` instead of trapping on out-of-range requests. -/
theorem c4_no_panic {E R : Type} (p : RProg E R) (s : Reader) (inp : Input)
    (n : Nat) :
    ( Reader.read_partial (runRProg p) s).isSome = true ∧
    (s.read_bytes 0).1 = Except.ok Input.empty ∧
    (s.read_bytes 0).2 = s ∧
    (s.skip 0).1 = Except.ok () ∧
    (s.skip 0).2 = s ∧
    (inp.len < n → inp.split_at n = none) ∧
    (inp.len = 0 → inp.split_first = none ∧ inp.first = none) := by
  have hrb0 : s.read_bytes 0 = (Except.ok Input.empty, s) := by
    rcases s with ⟨⟨l⟩⟩
    simp [Reader.read_bytes, Input.split_at, Input.empty]
  refine ⟨?_, ?_, ?_, ?_, ?_, ?_, ?_⟩
  · refine read_partial_isSome_of_shrink (runRProg p) s ?_
    intro r s1 hr
    have hs := runRProg_state_suffix p s
    rw [hr] at hs
    exact hs.length_le
  · rw [hrb0]
  · rw [hrb0]
  · simp only [Reader.skip, hrb0]
  · simp only [Reader.skip, hrb0]
  · intro h
    simp only [Input.len] at h
    simp only [Input.split_at, if_pos h]
  · intro h
    rcases inp with ⟨l⟩
    simp only [Input.len, List.length_eq_zero] at h
    subst h
    exact ⟨rfl, rfl⟩

theorem c4_no_panic_witness :
    ( Reader.read_partial
        (runRProg (RProg.ret (Except.ok () : Except Unit Unit)))
        (Reader.new (Input.fromBytes [1, 2]))).isSome = true ∧
    ((Reader.new (Input.fromBytes [])).read_bytes 0).1 = Except.ok Input.empty ∧
    ((Reader.new (Input.fromBytes [])).skip 0).1 = Except.ok () ∧
    Input.split_at (Input.fromBytes [1]) 2 = none ∧
    Input.split_first (Input.fromBytes []) = none ∧
    Input.first (Input.fromBytes []) = none := by
  have h1 := c4_no_panic (RProg.ret (Except.ok () : Except Unit Unit))
    (Reader.new (Input.fromBytes [1, 2])) (Input.fromBytes [1]) 2
  have h2 := c4_no_panic (RProg.ret (Except.ok () : Except Unit Unit))
    (Reader.new (Input.fromBytes [])) (Input.fromBytes []) 2
  exact ⟨h1.1, h2.2.1, h2.2.2.2.1, h1.2.2.2.2.2.1 (by decide),
    (h2.2.2.2.2.2.2 rfl).1, (h2.2.2.2.2.2.2 rfl).2⟩

/-- C5: the remaining window after any sequence of Reader operations is a
suffix of the View supplied at construction, and each successful consuming
read returns exactly the bytes removed from the front of the window: the
returned bytes concatenated with the new window equal the old window. -/
theorem c5_window_invariant {E R : Type} (p : RProg E R) (v : Input)
    (s t : Reader) (b : UInt8) (i : Input) (n : Nat) :
    List.IsSuffix (runRProg p (Reader.new v)).2.input.value v.value ∧
    (s.read_byte = (Except.ok b, t) → b :: t.input.value = s.input.value) ∧
    (s.read_bytes n = (Except.ok i, t) → i.value ++ t.input.value = s.input.value) ∧
    (s.read_bytes_to_end = (i, t) → i.value ++ t.input.value = s.input.value) := by
  refine ⟨runRProg_state_suffix p (Reader.new v), ?_, ?_, ?_⟩
  · intro h
    rcases s with ⟨⟨l⟩⟩
    cases l with
    | nil =>
      simp only [Reader.read_byte, Input.split_first] at h
      rw [Prod.mk.injEq] at h
      exact absurd h.1 (by simp)
    | cons x xs =>
      simp only [Reader.read_byte, Input.split_first] at h
      rw [Prod.mk.injEq, Except.ok.injEq] at h
      rw [← h.1, ← h.2]
  · intro h
    rcases s with ⟨⟨l⟩⟩
    unfold Reader.read_bytes at h
    by_cases hl : l.length < n
    · simp only [Input.split_at, if_pos hl] at h
      rw [Prod.mk.injEq] at h
      exact absurd h.1 (by simp)
    · simp only [Input.split_at, if_neg hl] at h
      rw [Prod.mk.injEq, Except.ok.injEq] at h
      rw [← h.1, ← h.2]
      exact List.take_append_drop n l
  · intro h
    unfold Reader.read_bytes_to_end at h
    rw [Prod.mk.injEq] at h
    rw [← h.1, ← h.2]
    simp [Input.empty]

theorem c5_window_invariant_witness :
    List.IsSuffix
      (runRProg (RProg.readByteK (fun _ => RProg.ret (Except.ok () : Except Unit Unit))) (Reader.new (Input.fromBytes [7, 8]))).2.input.value
      [7, 8] ∧
    (7 : UInt8) :: [8] = [7, 8] ∧
    [7] ++ [8] = ([7, 8] : List UInt8) ∧
    [7, 8] ++ [] = ([7, 8] : List UInt8) := by
  have h1 := c5_window_invariant
    (RProg.readByteK (fun _ => RProg.ret (Except.ok () : Except Unit Unit)))
    (Input.fromBytes [7, 8]) (Reader.new (Input.fromBytes [7, 8]))
    (Reader.new (Input.fromBytes [8])) 7 (Input.fromBytes [7]) 1
  have h2 := c5_window_invariant
    (RProg.readByteK (fun _ => RProg.ret (Except.ok () : Except Unit Unit)))
    (Input.fromBytes [7, 8]) (Reader.new (Input.fromBytes [7, 8]))
    (Reader.new Input.empty) 7 (Input.fromBytes [7, 8]) 1
  exact ⟨h1.1, h1.2.1 rfl, h1.2.2.1 rfl, h2.2.2.2 rfl⟩

/-- Callback that succeeds while replacing the reader by one with a strictly
larger window, as a Rust closure can do by assigning through the `&mut`. -/
def c6cbGrow (_s : Reader) : Except Unit Unit × Reader :=
  (Except.ok (), Reader.new (Input.fromBytes [0]))

/-- C6 counterexample: over the empty buffer, the callback `c6cbGrow` succeeds
but leaves the reader with a longer window than it started with, so
`checked_sub(..).unwrap()` inside `read_partial` panics (modelled as `none`):
`read_partial` does not succeed for every succeeding callback. -/
theorem c6_counterexample :
    (c6cbGrow (Reader.new (Input.fromBytes []))).1 = Except.ok () ∧
     Reader.read_partial c6cbGrow (Reader.new (Input.fromBytes [])) = none :=
  ⟨rfl, rfl⟩

/-- C6 amended: for every callback `f` that succeeds without growing the
remaining window (in particular any callback using only Reader operations),
`read_partial(f)` succeeds and returns `(bytes_read, r)` where `r` is `f`'s
result, `bytes_read` is the prefix of the old window of length
`old length - length remaining after f`, and the Reader is left where `f`
left it; that prefix concatenated with the final window is the old window. -/
theorem c6_read_partial_exact {E R : Type} (f : Reader → Except E R × Reader)
    (s s1 : Reader) (r : R) (hok : f s = (Except.ok r, s1))
    (hsuf : List.IsSuffix s1.input.value s.input.value) :
     Reader.read_partial f s =
      some (Except.ok
        (Input.fromBytes (s.input.value.take (s.input.len - s1.input.len)), r), s1) ∧
    s.input.value.take (s.input.len - s1.input.len) ++ s1.input.value =
      s.input.value := by
  have hle : s1.input.len ≤ s.input.len := hsuf.length_le
  constructor
  · simp only [ Reader.read_partial, hok]
    simp only [checked_sub, if_pos hle]
    simp only [Input.split_at, Input.len, Input.fromBytes]
    rw [if_neg (Nat.not_lt.mpr (Nat.sub_le _ _))]
  · obtain ⟨tpre, htp⟩ := hsuf
    simp only [Input.len]
    rw [← htp, List.length_append, Nat.add_sub_cancel, List.take_left]

/-- Callback that reads one byte and succeeds. -/
def c6cbOne (s : Reader) : Except Unit Unit × Reader :=
  (Except.ok (), s.read_byte.2)

theorem c6_read_partial_exact_witness :
     Reader.read_partial c6cbOne (Reader.new (Input.fromBytes [5, 6])) =
      some (Except.ok (Input.fromBytes [5], ()), Reader.new (Input.fromBytes [6])) ∧
    [5] ++ [6] = ([5, 6] : List UInt8) := by
  have h := c6_read_partial_exact c6cbOne (Reader.new (Input.fromBytes [5, 6]))
    (Reader.new (Input.fromBytes [6])) () rfl ⟨[5], rfl⟩
  exact ⟨h.1, h.2⟩

/-- C7: with a present View, `read_all_optional` coincides with `read_all` on
that View applied to the callback's present-reader action; with an absent
View, it returns exactly the callback's absent-case result, with no
consumption check and no synthesized `incomplete_read` error. -/
theorem c7_read_all_optional_spec {E R : Type} (e : E) (f : OptCallback E R)
    (v : Input) :
    read_all_optional (some v) e f = Input.read_all v e f.onSome ∧
    read_all_optional none e f = f.onNone :=
  ⟨rfl, rfl⟩

/-- C8: `read_bytes_to_end` never fails: it returns the whole remaining window
and leaves the Reader at end; `skip_to_end` is `read_bytes_to_end` with the
result discarded; both called at end are no-ops yielding the empty View. -/
theorem c8_to_end_total (s : Reader) :
    s.read_bytes_to_end = (s.input, Reader.new Input.empty) ∧
    s.read_bytes_to_end.2.at_end = true ∧
    s.skip_to_end = ((), s.read_bytes_to_end.2) ∧
    s.skip_to_end.2.at_end = true ∧
    (s.at_end = true → s.read_bytes_to_end = (Input.empty, s)) := by
  refine ⟨rfl, rfl, rfl, rfl, ?_⟩
  intro h
  rcases s with ⟨⟨l⟩⟩
  cases l with
  | nil => rfl
  | cons x xs => simp [Reader.at_end, Input.is_empty] at h

theorem c8_to_end_total_witness :
    (Reader.new (Input.fromBytes [])).read_bytes_to_end =
      (Input.empty, Reader.new (Input.fromBytes [])) ∧
    (Reader.new (Input.fromBytes [9])).skip_to_end.2.at_end = true := by
  have h1 := c8_to_end_total (Reader.new (Input.fromBytes []))
  have h2 := c8_to_end_total (Reader.new (Input.fromBytes [9]))
  exact ⟨h1.2.2.2.2 rfl, h2.2.2.2.1⟩

/-- C9: View equality is structural: two Views compare equal exactly when
their byte contents are equal, whatever buffers they were built from, and a
View compares equal to a raw slice exactly when its contents equal that
slice. -/
theorem c9_eq_structural (u v : Input) (b b1 b2 : List UInt8) :
    (Input.eq u v = true ↔ u.value = v.value) ∧
    (Input.eq_slice u b = true ↔ u.value = b) ∧
    (Input.eq (Input.fromBytes b1) (Input.fromBytes b2) = true ↔ b1 = b2) := by
  simp [Input.eq, Input.eq_slice, Input.as_slice_less_safe, Input.fromBytes]

theorem c9_eq_structural_witness :
    Input.eq (Input.fromBytes [65, 66]) (Input.fromBytes [65, 66]) = true ∧
    Input.eq_slice (Input.fromBytes [65, 66]) [65, 66] = true := by
  have h := c9_eq_structural (Input.fromBytes [65, 66]) (Input.fromBytes [65, 66])
    [65, 66] [65, 66] [65, 66]
  exact ⟨h.1.mpr rfl, h.2.1.mpr rfl⟩

/-- C10: round trip: wrapping a byte slice in a View and reading it back via
`as_slice_less_safe` returns the same bytes, with agreeing `len`/`is_empty`,
and a fresh Reader drained by `read_bytes_to_end` yields the whole slice. -/
theorem c10_round_trip (b : List UInt8) :
    (Input.fromBytes b).as_slice_less_safe = b ∧
    (Input.fromBytes b).len = b.length ∧
    (Input.fromBytes b).is_empty = b.isEmpty ∧
    (Reader.new (Input.fromBytes b)).read_bytes_to_end.1 = Input.fromBytes b :=
  ⟨rfl, rfl, rfl, rfl⟩
